import Mathlib

/-!
Verification of the NextJS/ElysiaJS monorepo's backend helpers: the fixed-window
rate limiter (`apps/api/src/plugins/rateLimit`), the namespaced Redis cache
wrapper (`apps/api/src/libs/cache`), client-IP extraction
(`apps/api/src/plugins/clientIp`), pagination helpers
(`apps/api/src/utils/pagination.ts`), the outbound-call retry/timeout policies
(`apps/api/src/utils/apiPolicy.ts`) and the Prisma soft-delete convention.

Strings are embedded as `List Char` (named `Str`) so that every definition is
executable by kernel reduction; JavaScript `Date.now()` timestamps and
durations in milliseconds are embedded as `Nat`.
-/

/-- JavaScript strings, embedded as lists of characters. -/
abbrev Str := List Char

/-! ## Rate limiter: `incrementRateLimit` (plugins/rateLimit/utils.ts) -/

/-- The rate-limit counter record `\x7bcount, resetAt\x7d` stored per client key. -/
structure RateLimitEntry where
  count : Nat
  resetAt : Nat
deriving DecidableEq

/-- One `rateLimitCache.set(key, value, ttl)` call issued by `incrementRateLimit`. -/
structure CacheSetCall where
  key : Str
  value : RateLimitEntry
  ttl : Nat
deriving DecidableEq

/-- The entry returned by `incrementRateLimit`, together with the store write it issued. -/
structure IncrementResult where
  entry : RateLimitEntry
  setCall : CacheSetCall
deriving DecidableEq

/-- The shared tail of `incrementRateLimit`: build the fresh entry
`\x7bcount: 1, resetAt: now + windowMs\x7d` and store it with TTL `windowMs`. -/
def freshRateLimit (key : Str) (now windowMs : Nat) : IncrementResult :=
  let entry : RateLimitEntry := { count := 1, resetAt := now + windowMs }
  { entry := entry, setCall := { key := key, value := entry, ttl := windowMs } }

/-- Shallow embedding of `incrementRateLimit(key, windowMs)`.
`now` is the value of `Date.now()`; `existing` is the result of
`getRateLimitEntry(key)` (`none` when the store has no entry, the entry was
evicted, or the underlying cache get failed and was degraded to a miss).
If the existing entry has `resetAt > now` it is incremented and re-stored with
TTL `resetAt - now`; otherwise a fresh entry is stored with TTL `windowMs`. -/
def incrementRateLimit (key : Str) (now : Nat) (existing : Option RateLimitEntry)
    (windowMs : Nat) : IncrementResult :=
  match existing with
  | some e =>
    if e.resetAt > now then
      let updated : RateLimitEntry := { count := e.count + 1, resetAt := e.resetAt }
      { entry := updated,
        setCall := { key := key, value := updated, ttl := e.resetAt - now } }
    else
      freshRateLimit key now windowMs
  | none => freshRateLimit key now windowMs

/-! ## Pagination helpers (utils/pagination.ts) -/

/-- Pagination metadata returned by `calculatePagination`. -/
structure Pagination where
  page : Nat
  limit : Nat
  total : Nat
  totalPages : Nat
  hasNext : Bool
  hasPrev : Bool
deriving DecidableEq

/-- Shallow embedding of `calculatePagination`.  `Math.ceil(total / limit)` over
naturals with `limit > 0` is `(total + limit - 1) / limit`. -/
def calculatePagination (page limit total : Nat) : Pagination :=
  let totalPages := (total + limit - 1) / limit
  { page := page, limit := limit, total := total, totalPages := totalPages,
    hasNext := decide (page < totalPages), hasPrev := decide (page > 1) }

/-- Shallow embedding of `calculateSkip(page, limit) = (page - 1) * limit`. -/
def calculateSkip (page limit : Nat) : Nat := (page - 1) * limit

/-! ## Outbound API policies (utils/apiPolicy.ts) -/

/-- Modelled from the effect library: a retry schedule, described by whether it
continues after the `n`-th retry and the delay (ms) it waits before retry `n`. -/
structure RetrySchedule where
  cont : Nat → Bool
  delay : Nat → Nat

/-- Modelled from the effect library: `Schedule.exponential(base, factor)`
recurs indefinitely with delay `base * factor ^ n` before retry `n`. -/
def scheduleExponential (base factor : Nat) : RetrySchedule :=
  { cont := fun _ => true, delay := fun n => base * factor ^ n }

/-- Modelled from the effect library: `Schedule.recurs(k)` recurs `k` times
(continues while the retry index is below `k`) with no delay of its own. -/
def scheduleRecurs (k : Nat) : RetrySchedule :=
  { cont := fun n => decide (n < k), delay := fun _ => 0 }

/-- Modelled from the effect library: `Schedule.intersect` continues while both
schedules continue and waits the maximum of the two delays. -/
def scheduleIntersect (s t : RetrySchedule) : RetrySchedule :=
  { cont := fun n => s.cont n && t.cont n,
    delay := fun n => max (s.delay n) (t.delay n) }

/-- Shallow embedding of `API_RETRY_POLICY =
Schedule.exponential(Duration.millis(500), 1).pipe(Schedule.intersect(Schedule.recurs(3)))`. -/
def API_RETRY_POLICY : RetrySchedule :=
  scheduleIntersect (scheduleExponential 500 1) (scheduleRecurs 3)

/-- Shallow embedding of `API_TIMEOUT_POLICY = Duration.seconds(30)`, in ms. -/
def API_TIMEOUT_POLICY : Nat := 30 * 1000

/-! ## Cache wrapper: `createCache` (libs/cache/index.ts)

Every cache operation wraps one interaction with the underlying keyv/Redis
store in `Effect.tryPromise` and degrades failures with `Effect.orElseSucceed`.
The store interaction is embedded as a `StoreOutcome` value (the settled
promise), and an executed `Effect<α, ε>` as `Except ε α`; the infallible
operations therefore have error channel `Empty` (TypeScript `never`). -/

/-- Outcome of one interaction with the underlying keyv/Redis store: the
promise either resolved or rejected with an error. -/
inductive StoreOutcome (α : Type) where
  | ok (a : α)
  | failure (err : Str)
deriving DecidableEq

/-- Embedding of `Effect.tryPromise`: a rejected promise becomes a typed
failure on the error channel. -/
def tryPromise {α : Type} : StoreOutcome α → Except Str α
  | .ok a => .ok a
  | .failure e => .error e

/-- Embedding of `Effect.orElseSucceed`: replace any failure by a fallback
value, emptying the error channel. -/
def orElseSucceed {ε α : Type} (fallback : α) : Except ε α → Except Empty α
  | .ok a => .ok a
  | .error _ => .ok fallback

/-- Extract the value of an effect whose error channel is empty. -/
def runInfallible {α : Type} : Except Empty α → α
  | .ok a => a
  | .error e => e.elim

/-- Embedding of `createCache(...).get`: keyv's `cache.get(key)` resolves to
`V | undefined` (`Option V`); the defined result is mapped to `Option.some`,
and any failure is degraded to `Option.none` (a cache miss). -/
def cacheGet {V : Type} (rawGet : Str → StoreOutcome (Option V)) (key : Str) :
    Except Empty (Option V) :=
  orElseSucceed Option.none
    (Except.map
      (fun result =>
        match result with
        | some v => Option.some v
        | none => Option.none)
      (tryPromise (rawGet key)))

/-- Embedding of `createCache(...).set`: a resolved `cache.set` yields `true`,
any failure is degraded to `false`. -/
def cacheSet {V : Type} (rawSet : Str → V → StoreOutcome Unit) (key : Str) (value : V) :
    Except Empty Bool :=
  orElseSucceed false (Except.map (fun _ => true) (tryPromise (rawSet key value)))

/-- Embedding of `createCache(...).delete`: keyv's `cache.delete(keys)`
resolves to a boolean, any failure is degraded to `false`. -/
def cacheDelete (rawDelete : Str → StoreOutcome Bool) (keys : Str) : Except Empty Bool :=
  orElseSucceed false (tryPromise (rawDelete keys))

/-- Embedding of `createCache(...).clear`: a resolved `cache.clear` yields
`true`, any failure is degraded to `false`. -/
def cacheClear (rawClear : StoreOutcome Unit) : Except Empty Bool :=
  orElseSucceed false (Except.map (fun _ => true) (tryPromise rawClear))

/-- Result of one `getOrSet` call: the produced effect result, how many times
the `compute` effect ran, and the value handed to `cache.set` when the
write-back was attempted. -/
structure GetOrSetResult (E V : Type) where
  result : Except E V
  computeRuns : Nat
  setAttempt : Option V

/-- Embedding of `createCache(...).getOrSet`: read the key (failures degraded
to a miss); on a defined cached value return it without running `compute`;
otherwise run `compute` once, attempt the write-back (its failure is degraded
to `false` and its result discarded), and return the computed value.
`compute` is the one-run outcome of the compute effect, whose error channel
`E` is the error channel of the whole call. -/
def getOrSet {E V : Type} (rawGet : Str → StoreOutcome (Option V)) (key : Str)
    (compute : Except E V) : GetOrSetResult E V :=
  match runInfallible (orElseSucceed Option.none (tryPromise (rawGet key))) with
  | some cached => { result := .ok cached, computeRuns := 0, setAttempt := none }
  | none =>
    match compute with
    | .error e => { result := .error e, computeRuns := 1, setAttempt := none }
    | .ok value => { result := .ok value, computeRuns := 1, setAttempt := some value }

/-! ### Cache key namespacing -/

/-- The namespace handed to keyv by `createCache`:
`fullNamespace = "sql-checking:" + namespace`. -/
def fullNamespace (ns : Str) : Str := "sql-checking:".data ++ ns

/-- Modelled from the keyv library (not part of this repository): a `Keyv`
instance constructed with namespace `ns` addresses the backing store under
`ns + ":" + key`. -/
def keyvStoredKey (ns key : Str) : Str := ns ++ ":".data ++ key

/-- The store key under which the operations of `createCache(namespace)`
address the entry for caller key `key`. -/
def cacheStoredKey (ns key : Str) : Str := keyvStoredKey (fullNamespace ns) key

/-- Following the spec's words (for comparison only): the stored key as the
JSON serialization of the compound of namespace and caller key,
`JSON.stringify([namespace, key])` for strings that need no escaping. -/
def specJsonCompoundKey (ns key : Str) : Str :=
  "[\"".data ++ ns ++ "\",\"".data ++ key ++ "\"]".data

/-! ## Theorems for claims C1, C5, C10, C8 -/

/-- C1: if a stored entry exists with `resetAt` strictly later than `now`,
`incrementRateLimit` returns it with `count + 1` and `resetAt` unchanged;
otherwise (no entry, or `now` at or past `resetAt`) it returns a fresh entry
with count 1 and `resetAt = now + window`. -/
theorem incrementRateLimit_window_spec (key : Str) (now windowMs : Nat)
    (existing : Option RateLimitEntry) :
    (∀ e, existing = some e → now < e.resetAt →
      (incrementRateLimit key now existing windowMs).entry =
        { count := e.count + 1, resetAt := e.resetAt })
  ∧ ((existing = none ∨ ∃ e, existing = some e ∧ e.resetAt ≤ now) →
      (incrementRateLimit key now existing windowMs).entry =
        { count := 1, resetAt := now + windowMs }) := by
  constructor
  · rintro e rfl h
    simp [incrementRateLimit, h]
  · rintro (rfl | ⟨e, rfl, h⟩)
    · rfl
    · simp [incrementRateLimit, Nat.not_lt.mpr h, freshRateLimit]

/-- Witness for C1: a live entry `(3, 200)` at time 100 becomes `(4, 200)`;
an expired entry `(3, 200)` at time 200 (exactly the boundary) resets to `(1, 800)`. -/
theorem incrementRateLimit_window_spec_witness :
    (incrementRateLimit ['k'] 100 (some ⟨3, 200⟩) 600).entry = ⟨4, 200⟩ ∧
    (incrementRateLimit ['k'] 200 (some ⟨3, 200⟩) 600).entry = ⟨1, 800⟩ :=
  ⟨(incrementRateLimit_window_spec ['k'] 100 600 (some ⟨3, 200⟩)).1 ⟨3, 200⟩ rfl
      (by decide),
   (incrementRateLimit_window_spec ['k'] 200 600 (some ⟨3, 200⟩)).2
      (Or.inr ⟨⟨3, 200⟩, rfl, by decide⟩)⟩

/-- C5 counterexample: with a live entry `(1, 1500)` at time 1000 and window
60000 ms, the increment path stores the record with TTL 500 (the remaining
time until `resetAt`), not the full rate window 60000. -/
theorem incrementRateLimit_ttl_counterexample :
    (incrementRateLimit "1.2.3.4".data 1000 (some ⟨1, 1500⟩) 60000).setCall.ttl = 500 ∧
    (incrementRateLimit "1.2.3.4".data 1000 (some ⟨1, 1500⟩) 60000).setCall.ttl ≠ 60000 := by
  exact ⟨rfl, by decide⟩

/-- C5 amended: every rate-limit counter record written to the store is keyed by
the client key handed to `incrementRateLimit` and holds the returned entry;
its TTL equals the full rate window on the fresh-entry path and the remaining
time `resetAt - now` on the increment path. -/
theorem incrementRateLimit_setCall_spec (key : Str) (now windowMs : Nat)
    (existing : Option RateLimitEntry) :
    (incrementRateLimit key now existing windowMs).setCall.key = key
  ∧ (incrementRateLimit key now existing windowMs).setCall.value =
      (incrementRateLimit key now existing windowMs).entry
  ∧ (∀ e, existing = some e → now < e.resetAt →
      (incrementRateLimit key now existing windowMs).setCall.ttl = e.resetAt - now)
  ∧ ((existing = none ∨ ∃ e, existing = some e ∧ e.resetAt ≤ now) →
      (incrementRateLimit key now existing windowMs).setCall.ttl = windowMs) := by
  refine ⟨?_, ?_, ?_, ?_⟩
  · cases existing with
    | none => rfl
    | some e =>
      by_cases h : now < e.resetAt <;>
        simp [incrementRateLimit, h, freshRateLimit]
  · cases existing with
    | none => rfl
    | some e =>
      by_cases h : now < e.resetAt <;>
        simp [incrementRateLimit, h, freshRateLimit]
  · rintro e rfl h
    simp [incrementRateLimit, h]
  · rintro (rfl | ⟨e, rfl, h⟩)
    · rfl
    · simp [incrementRateLimit, Nat.not_lt.mpr h, freshRateLimit]

/-- Witness for C5 (amended): the fresh path at time 0 with window 60000 writes
under the given key with TTL 60000. -/
theorem incrementRateLimit_setCall_spec_witness :
    (incrementRateLimit "9.9.9.9".data 0 none 60000).setCall.key = "9.9.9.9".data ∧
    (incrementRateLimit "9.9.9.9".data 0 none 60000).setCall.ttl = 60000 :=
  ⟨(incrementRateLimit_setCall_spec "9.9.9.9".data 0 60000 none).1,
   (incrementRateLimit_setCall_spec "9.9.9.9".data 0 60000 none).2.2.2 (Or.inl rfl)⟩

/-- C10: for `page ≥ 1` and `limit ≥ 1`, `totalPages` is the ceiling of
`total / limit` (the least `m` with `total ≤ limit * m`), `hasNext` holds
exactly when `page < totalPages`, `hasPrev` exactly when `page > 1`,
`calculateSkip page limit = (page - 1) * limit`, and the skip of page `p` plus
`limit` is exactly the skip of page `p + 1` (consecutive pages never overlap). -/
theorem calculatePagination_spec (page limit total : Nat)
    (hp : 1 ≤ page) (hl : 1 ≤ limit) :
    (total ≤ limit * (calculatePagination page limit total).totalPages
      ∧ ∀ m, total ≤ limit * m → (calculatePagination page limit total).totalPages ≤ m)
  ∧ ((calculatePagination page limit total).hasNext = true ↔
      page < (calculatePagination page limit total).totalPages)
  ∧ ((calculatePagination page limit total).hasPrev = true ↔ 1 < page)
  ∧ calculateSkip page limit = (page - 1) * limit
  ∧ calculateSkip (page + 1) limit = calculateSkip page limit + limit := by
  have h0 : 0 < limit := hl
  have htp : (calculatePagination page limit total).totalPages = total ⌈/⌉ limit := rfl
  refine ⟨⟨?_, ?_⟩, ?_, ?_, rfl, ?_⟩
  · rw [htp]
    exact (ceilDiv_le_iff_le_mul h0).1 le_rfl
  · intro m hm
    rw [htp]
    exact (ceilDiv_le_iff_le_mul h0).2 hm
  · simp [calculatePagination]
  · simp [calculatePagination]
  · show (page + 1 - 1) * limit = (page - 1) * limit + limit
    rw [Nat.add_sub_cancel]
    conv_lhs => rw [← Nat.succ_pred_eq_of_pos hp]
    rw [Nat.succ_mul, Nat.pred_eq_sub_one]

/-- Witness for C10: page 2, limit 10, total 25 gives 3 total pages, and
25 items fit in `10 * 3`. -/
theorem calculatePagination_spec_witness :
    (calculatePagination 2 10 25).totalPages = 3 ∧
    25 ≤ 10 * (calculatePagination 2 10 25).totalPages :=
  ⟨by decide, (calculatePagination_spec 2 10 25 (by decide) (by decide)).1.1⟩

/-- C8: `API_RETRY_POLICY` waits a fixed 500 ms exponential-base delay before
every retry (growth factor 1) and continues exactly while fewer than 3 retries
have happened; `API_TIMEOUT_POLICY` is a uniform 30 second (30000 ms) timeout. -/
theorem apiPolicy_spec :
    (∀ n, API_RETRY_POLICY.delay n = 500)
  ∧ (∀ n, API_RETRY_POLICY.cont n = true ↔ n < 3)
  ∧ API_TIMEOUT_POLICY = 30000 := by
  refine ⟨fun n => ?_, fun n => ?_, rfl⟩
  · simp [API_RETRY_POLICY, scheduleIntersect, scheduleExponential, scheduleRecurs]
  · simp [API_RETRY_POLICY, scheduleIntersect, scheduleExponential, scheduleRecurs]

/-- Witness for C8: the schedule waits 500 ms before retry 2 and still
continues at retry 2. -/
theorem apiPolicy_spec_witness :
    API_RETRY_POLICY.delay 2 = 500 ∧ API_RETRY_POLICY.cont 2 = true :=
  ⟨apiPolicy_spec.1 2, (apiPolicy_spec.2.1 2).mpr (by decide)⟩

/-- C2: `get`, `set`, `delete` and `clear` never raise (their error channel is
`Empty`): each always produces an `ok` result, and when the underlying store
interaction fails, `get` yields `Option.none` (a cache miss) while `set`,
`delete` and `clear` yield `false`. -/
theorem cache_ops_never_raise {V : Type} (rawGet : Str → StoreOutcome (Option V))
    (rawSet : Str → V → StoreOutcome Unit) (rawDelete : Str → StoreOutcome Bool)
    (rawClear : StoreOutcome Unit) (key : Str) (value : V) (err : Str) :
    ((∃ a, cacheGet rawGet key = .ok a)
      ∧ (∃ b, cacheSet rawSet key value = .ok b)
      ∧ (∃ b, cacheDelete rawDelete key = .ok b)
      ∧ (∃ b, cacheClear rawClear = .ok b))
  ∧ (rawGet key = .failure err → cacheGet rawGet key = .ok Option.none)
  ∧ (rawSet key value = .failure err → cacheSet rawSet key value = .ok false)
  ∧ (rawDelete key = .failure err → cacheDelete rawDelete key = .ok false)
  ∧ (rawClear = .failure err → cacheClear rawClear = .ok false) := by
  refine ⟨⟨?_, ?_, ?_, ?_⟩, ?_, ?_, ?_, ?_⟩
  · cases h : rawGet key with
    | ok a =>
      cases a with
      | none => exact ⟨Option.none, by simp [cacheGet, tryPromise, orElseSucceed, Except.map, h]⟩
      | some v => exact ⟨some v, by simp [cacheGet, tryPromise, orElseSucceed, Except.map, h]⟩
    | failure e => exact ⟨Option.none, by simp [cacheGet, tryPromise, orElseSucceed, Except.map, h]⟩
  · cases h : rawSet key value with
    | ok a => exact ⟨true, by simp [cacheSet, tryPromise, orElseSucceed, Except.map, h]⟩
    | failure e => exact ⟨false, by simp [cacheSet, tryPromise, orElseSucceed, Except.map, h]⟩
  · cases h : rawDelete key with
    | ok a => exact ⟨a, by simp [cacheDelete, tryPromise, orElseSucceed, Except.map, h]⟩
    | failure e => exact ⟨false, by simp [cacheDelete, tryPromise, orElseSucceed, Except.map, h]⟩
  · cases h : rawClear with
    | ok a => exact ⟨true, by simp [cacheClear, tryPromise, orElseSucceed, Except.map, h]⟩
    | failure e => exact ⟨false, by simp [cacheClear, tryPromise, orElseSucceed, Except.map, h]⟩
  · intro h; simp [cacheGet, tryPromise, orElseSucceed, Except.map, h]
  · intro h; simp [cacheSet, tryPromise, orElseSucceed, Except.map, h]
  · intro h; simp [cacheDelete, tryPromise, orElseSucceed, Except.map, h]
  · intro h; simp [cacheClear, tryPromise, orElseSucceed, Except.map, h]

/-- Witness for C2: against a store whose every interaction fails, `get`
returns a miss and `set` returns `false` — no failure escapes. -/
theorem cache_ops_never_raise_witness :
    cacheGet (V := Nat) (fun _ => StoreOutcome.failure "boom".data) "k".data
        = .ok Option.none
  ∧ cacheSet (fun _ (_ : Nat) => StoreOutcome.failure "boom".data) "k".data 5
        = .ok false :=
  ⟨(cache_ops_never_raise (fun _ => StoreOutcome.failure "boom".data)
      (fun _ (_ : Nat) => StoreOutcome.failure "boom".data)
      (fun _ => StoreOutcome.failure "boom".data)
      (StoreOutcome.failure "boom".data) "k".data 5 "boom".data).2.1 rfl,
   (cache_ops_never_raise (fun _ => StoreOutcome.failure "boom".data)
      (fun _ (_ : Nat) => StoreOutcome.failure "boom".data)
      (fun _ => StoreOutcome.failure "boom".data)
      (StoreOutcome.failure "boom".data) "k".data 5 "boom".data).2.2.1 rfl⟩

/-- C4: for a warm key (the store get resolves to a defined value) `getOrSet`
returns the cached value and never runs the compute effect; and in every call
the compute effect runs at most once. -/
theorem getOrSet_spec {E V : Type} (rawGet : Str → StoreOutcome (Option V))
    (key : Str) (compute : Except E V) :
    (∀ v, rawGet key = StoreOutcome.ok (some v) →
      getOrSet rawGet key compute
        = { result := .ok v, computeRuns := 0, setAttempt := none })
  ∧ (getOrSet rawGet key compute).computeRuns ≤ 1 := by
  constructor
  · intro v h
    simp [getOrSet, tryPromise, orElseSucceed, runInfallible, h]
  · cases h : rawGet key with
    | ok a =>
      cases a with
      | none => cases compute <;>
          simp [getOrSet, tryPromise, orElseSucceed, runInfallible, h]
      | some v => simp [getOrSet, tryPromise, orElseSucceed, runInfallible, h]
    | failure e => cases compute <;>
        simp [getOrSet, tryPromise, orElseSucceed, runInfallible, h]

/-- Witness for C4: with `7` cached under the key, `getOrSet` answers `7`
without running the compute effect (which would have produced `9`). -/
theorem getOrSet_spec_witness :
    getOrSet (fun _ => StoreOutcome.ok (some 7)) "k".data (Except.ok (ε := Unit) 9)
      = { result := .ok 7, computeRuns := 0, setAttempt := none } :=
  (getOrSet_spec (fun _ => StoreOutcome.ok (some 7)) "k".data
    (Except.ok (ε := Unit) 9)).1 7 rfl

/-- C6 counterexample: for namespace `user` and caller key `k` the store key is
the colon-joined `sql-checking:user:k`, which is not the JSON-serialized
compound `["user","k"]` of namespace and caller key. -/
theorem cacheStoredKey_counterexample :
    cacheStoredKey "user".data "k".data = "sql-checking:user:k".data ∧
    cacheStoredKey "user".data "k".data ≠ specJsonCompoundKey "user".data "k".data :=
  ⟨by decide, by decide⟩

/-- C6 amended: the operations of `createCache(namespace)` address the store
only under the full namespace prefix: the stored key is the caller key
prefixed by `fullNamespace = "sql-checking:" + namespace` and a separator
(a colon-joined compound of namespace and caller key, not a JSON-serialized
one). -/
theorem cacheStoredKey_namespaced (ns key : Str) :
    cacheStoredKey ns key = fullNamespace ns ++ (":".data ++ key)
  ∧ (∃ rest, cacheStoredKey ns key = "sql-checking:".data ++ (ns ++ rest)) := by
  constructor
  · simp [cacheStoredKey, keyvStoredKey]
  · exact ⟨":".data ++ key, by simp [cacheStoredKey, keyvStoredKey, fullNamespace]⟩

/-! ## Rate-limit plugin: `rateLimitPlugin` (plugins/rateLimit/index.ts) -/

/-- The plugin configuration after merging `DEFAULT_OPTIONS` with the caller's
options (`max`, `window` in ms, `message`). -/
structure RateLimitConfig where
  max : Nat
  window : Nat
  message : Str
deriving DecidableEq

/-- The three `X-RateLimit-*` response headers set by the plugin (numeric
values; their decimal/ISO stringification is not modelled). -/
structure RateLimitHeaders where
  limit : Nat
  remaining : Int
  reset : Nat
deriving DecidableEq

/-- The early `status(429, ...)` response produced when the limit is exceeded,
with its `Retry-After` header value in seconds. -/
structure Rejection where
  status : Nat
  retryAfter : Int
  message : Str
deriving DecidableEq

/-- Outcome of the plugin's `onBeforeHandle` hook: the rate-limit headers it
set (none when the request was skipped) and the rejection it returned (none
when the handler chain proceeds). -/
structure BeforeHandleOutcome where
  headers : Option RateLimitHeaders
  rejection : Option Rejection
deriving DecidableEq

/-- Embedding of `Math.ceil(a / b)` for an exact integer quotient `a / b`,
`b > 0` (JavaScript number division followed by `Math.ceil`). -/
def mathCeilDiv (a : Int) (b : Nat) : Int := Int.ceil ((a : ℚ) / (b : ℚ))

/-- The entry `result` computed inside the hook:
`incrementRateLimit(clientIpAddress || 'unknown', config.window)`. -/
def rateLimitResultEntry (cfg : RateLimitConfig) (clientIpAddress : Str) (now : Nat)
    (existing : Option RateLimitEntry) : RateLimitEntry :=
  (incrementRateLimit (if clientIpAddress == [] then "unknown".data else clientIpAddress)
    now existing cfg.window).entry

/-- Shallow embedding of the plugin's `onBeforeHandle` hook.  `skipReq` is the
result of the configured `skip` predicate (false when none is configured);
`now` is `Date.now()` inside `incrementRateLimit` and `nowRetry` the later
`Date.now()` used for the `Retry-After` computation; `existing` is the stored
entry read for this client. -/
def rateLimitBeforeHandle (cfg : RateLimitConfig) (skipReq : Bool)
    (clientIpAddress : Str) (now nowRetry : Nat)
    (existing : Option RateLimitEntry) : BeforeHandleOutcome :=
  if skipReq then { headers := none, rejection := none }
  else
    let result := rateLimitResultEntry cfg clientIpAddress now existing
    let remaining : Int := max 0 ((cfg.max : Int) - (result.count : Int))
    { headers := some { limit := cfg.max, remaining := remaining, reset := result.resetAt },
      rejection :=
        if result.count > cfg.max then
          some { status := 429,
                 retryAfter := mathCeilDiv ((result.resetAt : Int) - (nowRetry : Int)) 1000,
                 message := cfg.message }
        else none }

/-! ## Prisma soft-delete convention (libs/prisma, libs/auth/guard.ts) -/

/-- Modelled from the spec: a user row under the documented soft-delete
convention (the Prisma schema itself is not under `src/`; the
`isDeleted` flag and the queried columns follow the repository's database
instructions and the auth-guard query). -/
structure DbRecord where
  email : Str
  username : Str
  role : Str
  isDeleted : Bool
deriving DecidableEq

/-- Modelled from the Prisma client (not part of this repository):
`findFirst({ where })` returns the first record of the table satisfying the
where clause.  The plain `PrismaClient` constructed by `getPrisma` installs no
query extension or middleware, so no implicit filter is added. -/
def prismaFindFirst (whereClause : DbRecord → Bool) (table : List DbRecord) :
    Option DbRecord :=
  table.find? whereClause

/-- The where clause of the auth-guard role lookup (libs/auth/guard.ts) on the
email sign-in path: `\x7b email: identifier \x7d` — it has no `isDeleted` filter. -/
def guardRoleWhere (identifier : Str) (r : DbRecord) : Bool := r.email == identifier


/-- C3: for every non-skipped request the hook sets the `X-RateLimit-Limit`,
`X-RateLimit-Remaining` and `X-RateLimit-Reset` headers, with remaining quota
`max(0, max - count)` (never negative) and reset the entry's `resetAt`; and it
rejects exactly when the incremented count strictly exceeds the configured
maximum, with fixed status 429, the configured message, and a `Retry-After`
value that is the least whole number of seconds covering the time until the
reset (the seconds until reset, rounded up). -/
theorem rateLimitPlugin_spec (cfg : RateLimitConfig) (ip : Str) (now nowRetry : Nat)
    (existing : Option RateLimitEntry) :
    ∃ hs, (rateLimitBeforeHandle cfg false ip now nowRetry existing).headers = some hs
      ∧ hs.limit = cfg.max
      ∧ 0 ≤ hs.remaining
      ∧ hs.remaining =
          max 0 ((cfg.max : Int) - (rateLimitResultEntry cfg ip now existing).count)
      ∧ hs.reset = (rateLimitResultEntry cfg ip now existing).resetAt
      ∧ ((rateLimitBeforeHandle cfg false ip now nowRetry existing).rejection.isSome
          = true ↔ cfg.max < (rateLimitResultEntry cfg ip now existing).count)
      ∧ (∀ rj, (rateLimitBeforeHandle cfg false ip now nowRetry existing).rejection
            = some rj →
          rj.status = 429 ∧ rj.message = cfg.message
          ∧ ((rateLimitResultEntry cfg ip now existing).resetAt : Int) - nowRetry
              ≤ rj.retryAfter * 1000
          ∧ ∀ k : Int,
              ((rateLimitResultEntry cfg ip now existing).resetAt : Int) - nowRetry
                ≤ k * 1000 → rj.retryAfter ≤ k) := by
  have hout : rateLimitBeforeHandle cfg false ip now nowRetry existing =
      { headers := some
          { limit := cfg.max,
            remaining :=
              max 0 ((cfg.max : Int) - (rateLimitResultEntry cfg ip now existing).count),
            reset := (rateLimitResultEntry cfg ip now existing).resetAt },
        rejection :=
          if (rateLimitResultEntry cfg ip now existing).count > cfg.max then
            some { status := 429,
                   retryAfter := mathCeilDiv
                     (((rateLimitResultEntry cfg ip now existing).resetAt : Int) -
                       (nowRetry : Int)) 1000,
                   message := cfg.message }
          else none } := rfl
  refine ⟨_, by rw [hout], rfl, le_max_left _ _, rfl, rfl, ?_, ?_⟩
  · rw [hout]
    by_cases hgt : (rateLimitResultEntry cfg ip now existing).count > cfg.max
    · simp [hgt]
    · simp [hgt]
  · intro rj hrj
    rw [hout] at hrj
    by_cases hgt : (rateLimitResultEntry cfg ip now existing).count > cfg.max
    · rw [if_pos hgt] at hrj
      have hrj2 := (Option.some.inj hrj).symm
      subst hrj2
      refine ⟨rfl, rfl, ?_, ?_⟩
      · have h1000 : (0 : ℚ) < ((1000 : Nat) : ℚ) := by norm_num
        have hle := Int.le_ceil
          (((((rateLimitResultEntry cfg ip now existing).resetAt : Int) -
              (nowRetry : Int)) : ℚ) / ((1000 : Nat) : ℚ))
        have h2 := (div_le_iff₀ h1000).1 hle
        show (((rateLimitResultEntry cfg ip now existing).resetAt : Int) -
            (nowRetry : Int)) ≤ mathCeilDiv _ 1000 * 1000
        unfold mathCeilDiv
        exact_mod_cast h2
      · intro k hk
        have h1000 : (0 : ℚ) < ((1000 : Nat) : ℚ) := by norm_num
        show mathCeilDiv _ 1000 ≤ k
        unfold mathCeilDiv
        rw [Int.ceil_le, div_le_iff₀ h1000]
        exact_mod_cast hk
    · rw [if_neg hgt] at hrj
      exact absurd hrj (by simp)

/-- Witness for C3: with max 10 and a live entry at count 10, the 11th request
gets headers with limit 10, a non-negative remaining quota, and is rejected. -/
theorem rateLimitPlugin_spec_witness :
    ∃ hs, (rateLimitBeforeHandle ⟨10, 60000, []⟩ false "1.2.3.4".data 0 500
        (some ⟨10, 30000⟩)).headers = some hs
      ∧ hs.limit = 10 ∧ 0 ≤ hs.remaining
      ∧ (rateLimitBeforeHandle ⟨10, 60000, []⟩ false "1.2.3.4".data 0 500
          (some ⟨10, 30000⟩)).rejection.isSome = true := by
  obtain ⟨hs, h1, h2, h3, _, _, h6, _⟩ :=
    rateLimitPlugin_spec ⟨10, 60000, []⟩ "1.2.3.4".data 0 500 (some ⟨10, 30000⟩)
  exact ⟨hs, h1, h2, h3, h6.mpr (by decide)⟩

/-- C7 counterexample: the auth-guard role lookup — a query through the ORM
client whose where clause has no `isDeleted` filter — returns a record that is
marked deleted, so soft-deleted records are not excluded by default. -/
theorem softDelete_default_query_counterexample :
    prismaFindFirst (guardRoleWhere "a@b.c".data)
        [{ email := "a@b.c".data, username := "a".data, role := "TEACHER".data,
           isDeleted := true }]
      = some { email := "a@b.c".data, username := "a".data, role := "TEACHER".data,
               isDeleted := true }
  ∧ ({ email := "a@b.c".data, username := "a".data, role := "TEACHER".data,
       isDeleted := true } : DbRecord).isDeleted = true :=
  ⟨by decide, rfl⟩

/-- C7 amended: soft-deleted records are excluded exactly from the queries that
follow the documented convention of conjoining `isDeleted: false` to the where
clause; the ORM client itself adds no implicit filter, so a query that obeys
the convention never returns a record marked deleted. -/
theorem softDelete_convention_spec (p : DbRecord → Bool) (table : List DbRecord) :
    (∀ r, prismaFindFirst (fun x => p x && !x.isDeleted) table = some r →
        r.isDeleted = false)
  ∧ (∀ r, r ∈ table → r.isDeleted = true →
        prismaFindFirst (fun x => p x && !x.isDeleted) table ≠ some r) := by
  constructor
  · intro r hr
    have h := List.find?_some hr
    simp only [Bool.and_eq_true, Bool.not_eq_true'] at h
    exact h.2
  · intro r _ hdel hcontra
    have h := List.find?_some hcontra
    simp only [Bool.and_eq_true, Bool.not_eq_true'] at h
    exact absurd (hdel.symm.trans h.2) (by decide)

/-- Witness for C7 (amended): a convention-following query over a table holding
one deleted and one live record returns the live record, which is not deleted. -/
theorem softDelete_convention_spec_witness :
    (⟨"b".data, "b".data, "S".data, false⟩ : DbRecord).isDeleted = false :=
  (softDelete_convention_spec (fun _ => true)
    [⟨"a".data, "a".data, "T".data, true⟩, ⟨"b".data, "b".data, "S".data, false⟩]).1
    ⟨"b".data, "b".data, "S".data, false⟩ (by decide)

/-! ## Client IP extraction: `extractClientIpAddress` (plugins/clientIp)

The zod regexes and string operations are embedded as structural functions on
`List Char` so they evaluate by kernel reduction. -/

/-- One octet of the IPv4 regex: `25[0-5] | 2[0-4][0-9] | [01]?[0-9][0-9]?`
(one digit; two digits; or three digits whose first is 0 or 1, or 25x with
x ≤ 5, or 2yx with y ≤ 4). -/
def matchIpv4Octet (cs : Str) : Bool :=
  match cs with
  | [c] => c.isDigit
  | [c1, c2] => c1.isDigit && c2.isDigit
  | [c1, c2, c3] =>
    (c1 == '2' && c2 == '5' && '0' ≤ c3 && c3 ≤ '5')
    || (c1 == '2' && '0' ≤ c2 && c2 ≤ '4' && c3.isDigit)
    || ((c1 == '0' || c1 == '1') && c2.isDigit && c3.isDigit)
  | _ => false

/-- Split a string at every occurrence of the separator character (embedding of
JavaScript `value.split(sep)` for a one-character separator). -/
def splitOnChar (sep : Char) : Str → List Str
  | [] => [[]]
  | c :: rest =>
    if c == sep then
      [] :: splitOnChar sep rest
    else
      match splitOnChar sep rest with
      | [] => [[c]]
      | p :: ps => (c :: p) :: ps

/-- The anchored IPv4 regex: exactly four dot-separated octets. -/
def matchIpv4 (cs : Str) : Bool :=
  let parts := splitOnChar '.' cs
  parts.length == 4 && parts.all matchIpv4Octet

/-- One hex group of the IPv6 regex: `[0-9a-fA-F]{1,4}`. -/
def matchHexGroup (cs : Str) : Bool :=
  decide (1 ≤ cs.length) && decide (cs.length ≤ 4)
    && cs.all fun c => c.isDigit || ('a' ≤ c && c ≤ 'f') || ('A' ≤ c && c ≤ 'F')

/-- The anchored IPv6 regex of the source: eight colon-separated hex groups, or
the literal `::1`, or the literal `::`. -/
def matchIpv6 (cs : Str) : Bool :=
  (let parts := splitOnChar ':' cs
   parts.length == 8 && parts.all matchHexGroup)
  || cs == "::1".data || cs == "::".data

/-- Embedding of `isValidIpAddress`: the zod union of the IPv4 and IPv6 regexes. -/
def isValidIpAddress (cs : Str) : Bool := matchIpv4 cs || matchIpv6 cs

/-- The `^172\.(1[6-9]|2[0-9]|3[0-1])\.` test of `isPrivateIp`. -/
def matches172Private (cs : Str) : Bool :=
  match cs with
  | '1' :: '7' :: '2' :: '.' :: c1 :: c2 :: '.' :: _ =>
    (c1 == '1' && '6' ≤ c2 && c2 ≤ '9')
    || (c1 == '2' && c2.isDigit)
    || (c1 == '3' && (c2 == '0' || c2 == '1'))
  | _ => false

/-- Embedding of `isPrivateIp`: prefix tests for the private/local ranges, in
the order of the source. -/
def isPrivateIp (ip : Str) : Bool :=
  "10.".data.isPrefixOf ip
  || "192.168.".data.isPrefixOf ip
  || matches172Private ip
  || "127.".data.isPrefixOf ip
  || "169.254.".data.isPrefixOf ip
  || "::1".data.isPrefixOf ip
  || ("fc00:".data.isPrefixOf ip || "fd00:".data.isPrefixOf ip)
  || "fe80:".data.isPrefixOf ip

/-- JavaScript `String.prototype.trim` whitespace (the characters that occur in
HTTP header values). -/
def isJsSpace (c : Char) : Bool :=
  c == ' ' || c == '\t' || c == '\n' || c == '\r'

/-- Embedding of `value.trim()`. -/
def trimChars (cs : Str) : Str :=
  ((cs.dropWhile isJsSpace).reverse.dropWhile isJsSpace).reverse

/-- A request-header map: header names with their (single) values, as produced
by `getHeader` on either a `Headers` object or a record. -/
abbrev HeaderMap := List (Str × Str)

/-- Embedding of `getHeader(headers, key)`: the value of the first binding of
the header name, when present. -/
def getHeader (headers : HeaderMap) (key : Str) : Option Str :=
  (headers.find? fun p => p.1 == key).map fun p => p.2

/-- The 14 proxy headers recognized by the source, in its preference order. -/
def IP_HEADERS : List Str :=
  ["cf-connecting-ip".data,
   "x-forwarded-for".data,
   "x-real-ip".data,
   "x-client-ip".data,
   "true-client-ip".data,
   "x-original-forwarded-for".data,
   "fastly-client-ip".data,
   "x-cluster-client-ip".data,
   "x-forwarded".data,
   "forwarded-for".data,
   "forwarded".data,
   "appengine-user-ip".data,
   "cf-pseudo-ipv4".data,
   "fly-client-ip".data]

/-- Embedding of `value.split(',').map(ip => ip.trim())`. -/
def entriesOfValue (v : Str) : List Str := (splitOnChar ',' v).map trimChars

/-- The inner loop shared by `extractPublicIp` and `extractAnyValidIp`: the
first comma-separated entry of the header value that is non-empty (truthy) and
satisfies the predicate. -/
def findIpIn (p : Str → Bool) (v : Str) : Option Str :=
  (entriesOfValue v).find? fun ip => !(ip == []) && p ip

/-- The outer loop shared by `extractPublicIp` and `extractAnyValidIp`: walk
the recognized header names in order, skip absent or empty (falsy) values, and
return the first matching entry. -/
def scanIpHeaders (p : Str → Bool) (headers : HeaderMap) : List Str → Option Str
  | [] => none
  | name :: rest =>
    match getHeader headers name with
    | none => scanIpHeaders p headers rest
    | some v =>
      if v == [] then scanIpHeaders p headers rest
      else
        match findIpIn p v with
        | some ip => some ip
        | none => scanIpHeaders p headers rest

/-- Embedding of `extractPublicIp`: first valid, non-private entry across the
recognized headers. -/
def extractPublicIp (headers : HeaderMap) : Option Str :=
  scanIpHeaders (fun ip => isValidIpAddress ip && !isPrivateIp ip) headers IP_HEADERS

/-- Embedding of `extractAnyValidIp`: first valid entry across the recognized
headers. -/
def extractAnyValidIp (headers : HeaderMap) : Option Str :=
  scanIpHeaders isValidIpAddress headers IP_HEADERS

/-- Embedding of `extractClientIpAddress` (on present headers): prefer a
public IP, otherwise fall back to any valid IP. -/
def extractClientIpAddress (headers : HeaderMap) : Option Str :=
  match extractPublicIp headers with
  | some publicIp => some publicIp
  | none => extractAnyValidIp headers

/-- The comma-separated, trimmed entries the source scans for header `name`
(empty when the header is absent or its value is the empty, falsy string). -/
def headerEntries (headers : HeaderMap) (name : Str) : List Str :=
  match getHeader headers name with
  | none => []
  | some v => if v == [] then [] else entriesOfValue v


/-- Any hit of the header scan satisfies the scanned predicate and is one of
the scanned headers' entries. -/
theorem scanIpHeaders_some {p : Str → Bool} {headers : HeaderMap} {names : List Str}
    {ip : Str} (h : scanIpHeaders p headers names = some ip) :
    p ip = true ∧ ∃ name ∈ names, ip ∈ headerEntries headers name := by
  induction names with
  | nil => simp [scanIpHeaders] at h
  | cons name rest ih =>
    simp only [scanIpHeaders] at h
    cases hg : getHeader headers name with
    | none =>
      simp only [hg] at h
      obtain ⟨h1, nm, hnm, hmem⟩ := ih h
      exact ⟨h1, nm, List.mem_cons_of_mem _ hnm, hmem⟩
    | some v =>
      simp only [hg] at h
      by_cases hv : v == []
      · rw [if_pos hv] at h
        obtain ⟨h1, nm, hnm, hmem⟩ := ih h
        exact ⟨h1, nm, List.mem_cons_of_mem _ hnm, hmem⟩
      · rw [if_neg hv] at h
        cases hf : findIpIn p v with
        | none =>
          simp only [hf] at h
          obtain ⟨h1, nm, hnm, hmem⟩ := ih h
          exact ⟨h1, nm, List.mem_cons_of_mem _ hnm, hmem⟩
        | some ip2 =>
          simp only [hf] at h
          have hip : ip2 = ip := Option.some.inj h
          subst hip
          have hpred := List.find?_some hf
          have hmem := List.mem_of_find?_eq_some hf
          simp only [Bool.and_eq_true] at hpred
          refine ⟨hpred.2, name, List.mem_cons_self _ _, ?_⟩
          simp only [headerEntries, hg, if_neg hv]
          exact hmem

/-- When the header scan misses, every entry of every scanned header that
satisfies the scanned predicate is the empty (falsy) string. -/
theorem scanIpHeaders_none {p : Str → Bool} {headers : HeaderMap} {names : List Str}
    (h : scanIpHeaders p headers names = none) :
    ∀ name ∈ names, ∀ e ∈ headerEntries headers name, p e = true → e = [] := by
  induction names with
  | nil => intro name hname; exact absurd hname (List.not_mem_nil _)
  | cons name rest ih =>
    simp only [scanIpHeaders] at h
    cases hg : getHeader headers name with
    | none =>
      simp only [hg] at h
      intro nm hnm e he hpe
      rcases List.mem_cons.mp hnm with rfl | hnm2
      · simp [headerEntries, hg] at he
      · exact ih h nm hnm2 e he hpe
    | some v =>
      simp only [hg] at h
      by_cases hv : v == []
      · rw [if_pos hv] at h
        have hveq : v = [] := eq_of_beq hv
        subst hveq
        intro nm hnm e he hpe
        rcases List.mem_cons.mp hnm with rfl | hnm2
        · simp [headerEntries, hg] at he
        · exact ih h nm hnm2 e he hpe
      · rw [if_neg hv] at h
        cases hf : findIpIn p v with
        | some ip2 =>
          rw [hf] at h
          exact absurd h (by simp)
        | none =>
          simp only [hf] at h
          intro nm hnm e he hpe
          rcases List.mem_cons.mp hnm with rfl | hnm2
          · simp only [headerEntries, hg, if_neg hv] at he
            have hall := List.find?_eq_none.mp hf e he
            have h2 : ¬((!(e == [])) = true ∧ p e = true) := by
              simpa [Bool.and_eq_true] using hall
            have h3 : (e == []) = true := by
              cases hbe : (e == []) with
              | true => rfl
              | false => exact absurd ⟨by simp [hbe], hpe⟩ h2
            exact eq_of_beq h3
          · exact ih h nm hnm2 e he hpe

/-- C9: `extractClientIpAddress` prefers public addresses: whenever any
recognized proxy header holds a syntactically valid non-private entry, it
returns a valid public (non-private) IP; a private/local IP is returned only
when no valid public IP occurs in any recognized header; and it returns
nothing only when no valid IP occurs at all. -/
theorem extractClientIpAddress_spec (headers : HeaderMap) :
    (∀ ip, extractClientIpAddress headers = some ip → isValidIpAddress ip = true)
  ∧ ((∃ name ∈ IP_HEADERS, ∃ e ∈ headerEntries headers name,
        isValidIpAddress e = true ∧ isPrivateIp e = false) →
      ∃ ip, extractClientIpAddress headers = some ip
        ∧ isValidIpAddress ip = true ∧ isPrivateIp ip = false)
  ∧ (∀ ip, extractClientIpAddress headers = some ip → isPrivateIp ip = true →
      ∀ name ∈ IP_HEADERS, ∀ e ∈ headerEntries headers name,
        ¬(isValidIpAddress e = true ∧ isPrivateIp e = false))
  ∧ (extractClientIpAddress headers = none →
      ∀ name ∈ IP_HEADERS, ∀ e ∈ headerEntries headers name,
        isValidIpAddress e = false) := by
  have hnil : isValidIpAddress ([] : Str) = false := by decide
  refine ⟨?_, ?_, ?_, ?_⟩
  · intro ip h
    cases hp : extractPublicIp headers with
    | some pubIp =>
      simp only [extractClientIpAddress, hp] at h
      have hp' : scanIpHeaders (fun x => isValidIpAddress x && !isPrivateIp x)
          headers IP_HEADERS = some pubIp := hp
      obtain ⟨hpred, _⟩ := scanIpHeaders_some hp'
      simp only [Bool.and_eq_true] at hpred
      rw [← Option.some.inj h]
      exact hpred.1
    | none =>
      simp only [extractClientIpAddress, hp] at h
      have h' : scanIpHeaders isValidIpAddress headers IP_HEADERS = some ip := h
      exact (scanIpHeaders_some h').1
  · rintro ⟨name, hname, e, he, hv, hpub⟩
    cases hp : extractPublicIp headers with
    | some pubIp =>
      have hp' : scanIpHeaders (fun x => isValidIpAddress x && !isPrivateIp x)
          headers IP_HEADERS = some pubIp := hp
      obtain ⟨hpred, _⟩ := scanIpHeaders_some hp'
      simp only [Bool.and_eq_true, Bool.not_eq_true'] at hpred
      exact ⟨pubIp, by simp [extractClientIpAddress, hp], hpred.1, hpred.2⟩
    | none =>
      have hp' : scanIpHeaders (fun x => isValidIpAddress x && !isPrivateIp x)
          headers IP_HEADERS = none := hp
      have he0 : e = [] :=
        scanIpHeaders_none hp' name hname e he (by simp [hv, hpub])
      rw [he0, hnil] at hv
      exact absurd hv Bool.false_ne_true
  · intro ip h hpriv name hname e he
    rintro ⟨hv, hpub⟩
    cases hp : extractPublicIp headers with
    | some pubIp =>
      simp only [extractClientIpAddress, hp] at h
      have hp' : scanIpHeaders (fun x => isValidIpAddress x && !isPrivateIp x)
          headers IP_HEADERS = some pubIp := hp
      obtain ⟨hpred, _⟩ := scanIpHeaders_some hp'
      simp only [Bool.and_eq_true, Bool.not_eq_true'] at hpred
      rw [← Option.some.inj h] at hpriv
      rw [hpred.2] at hpriv
      exact absurd hpriv Bool.false_ne_true
    | none =>
      have hp' : scanIpHeaders (fun x => isValidIpAddress x && !isPrivateIp x)
          headers IP_HEADERS = none := hp
      have he0 : e = [] :=
        scanIpHeaders_none hp' name hname e he (by simp [hv, hpub])
      rw [he0, hnil] at hv
      exact absurd hv Bool.false_ne_true
  · intro h name hname e he
    cases hp : extractPublicIp headers with
    | some pubIp => simp [extractClientIpAddress, hp] at h
    | none =>
      simp only [extractClientIpAddress, hp] at h
      have h' : scanIpHeaders isValidIpAddress headers IP_HEADERS = none := h
      cases hvb : isValidIpAddress e with
      | false => rfl
      | true =>
        have he0 : e = [] := scanIpHeaders_none h' name hname e he hvb
        rw [he0, hnil] at hvb
        exact absurd hvb Bool.false_ne_true

/-- Witness for C9: with `x-forwarded-for: 10.0.0.1, 8.8.8.8` the private hop
is skipped and a valid public IP is returned. -/
theorem extractClientIpAddress_spec_witness :
    ∃ ip, extractClientIpAddress
        [("x-forwarded-for".data, "10.0.0.1, 8.8.8.8".data)] = some ip
      ∧ isValidIpAddress ip = true ∧ isPrivateIp ip = false :=
  (extractClientIpAddress_spec
      [("x-forwarded-for".data, "10.0.0.1, 8.8.8.8".data)]).2.1
    ⟨"x-forwarded-for".data, by decide, "8.8.8.8".data, by decide, by decide, by decide⟩
